import Mathlib

/-!
# Windowed dataset construction of the stock-prediction script

Shallow embedding of `shuffle_in_unison` and `load_data` from
`stock_prediction (1).py`, together with the library calls they make
(pandas frame operations, `sklearn.preprocessing.MinMaxScaler`,
`sklearn.model_selection.train_test_split`, `numpy.random.shuffle`).

Modelling conventions:
* numeric data is `ℚ` (input tables are assumed NaN-free, so the only
  missing values are the ones `shift` introduces in the `future` column);
* a pandas data frame is a date index plus named numeric columns;
* the process-global numpy random generator is modelled by a stream
  `draws : Nat → Nat` of raw random numbers (the k-th number drawn), and
  the random permutation used by `train_test_split` by a function
  `permFn : Nat → List Nat` giving the permutation drawn for a given length;
* Python exceptions (`assert`, `KeyError`, `IndexError`, `ValueError`)
  become an `Except Err` result.
-/

namespace StockPred

/-- A pandas-style data frame: a date index plus named numeric columns.
Only the `pd.DataFrame` branch of `load_data` is modelled; the `str`
branch fetches data over the network and is out of scope. -/
structure Frame where
  index : List ℚ
  cols : List (String × List ℚ)
deriving DecidableEq

/-- `df.columns`. -/
def Frame.columns (df : Frame) : List String := df.cols.map Prod.fst

/-- `df[c]`: the column named `c` (the empty list if absent; `load_data`
only reads columns whose presence it has checked). -/
def Frame.getCol (df : Frame) (c : String) : List ℚ :=
  match df.cols.find? (fun p => p.1 == c) with
  | some p => p.2
  | none => []

/-- `df[c] = v`: overwrite the column named `c` in place, or append it as
a new final column, exactly as pandas column assignment does. -/
def Frame.setCol (df : Frame) (c : String) (v : List ℚ) : Frame :=
  if df.cols.any (fun p => p.1 == c) then
    ⟨df.index, df.cols.map (fun p => if p.1 == c then (p.1, v) else p)⟩
  else ⟨df.index, df.cols ++ [(c, v)]⟩

/-- Number of rows of the frame. -/
def Frame.nrows (df : Frame) : Nat := df.index.length

/-- Keep only the first `m` rows of the frame (index and every column). -/
def Frame.takeRows (df : Frame) (m : Nat) : Frame :=
  ⟨df.index.take m, df.cols.map (fun p => (p.1, p.2.take m))⟩

/-- The configuration parameters of `load_data`. -/
structure Config where
  n_steps : Nat
  scale : Bool
  shuffle : Bool
  lookup_step : Nat
  split_by_date : Bool
  test_size : ℚ
deriving DecidableEq

/-- The Python exceptions `load_data` can raise. -/
inductive Err where
  /-- the `assert col in df.columns` failure, naming the column -/
  | missingColumn : String → Err
  /-- `df['adjclose']` on a frame without that column -/
  | keyError : String → Err
  /-- `X_test[:, -1, -1]` on the 1-D empty array obtained when no window
  was emitted -/
  | indexError : Err
  /-- the validation errors of `sklearn.model_selection.train_test_split` -/
  | valueError : Err
deriving DecidableEq

/-! ## numpy shuffling -/

/-- Swap the entries at positions `i` and `j` (no-op out of range), the
elementary step of `numpy.random.shuffle`. -/
def swapIdx (l : List α) (i j : Nat) : List α :=
  match l.get? i, l.get? j with
  | some a, some b => (l.set i b).set j a
  | _, _ => l

/-- The passes of the Fisher–Yates loop of `numpy.random.shuffle` on an
array of length `n`: the `t`-th pass (counting draws from the generator)
works at position `i = n - 1 - t`, for `i = n-1, …, 1`. -/
def fyPasses (n : Nat) : List (Nat × Nat) :=
  (List.range (n - 1)).map (fun t => (t, n - 1 - t))

/-- `numpy.random.shuffle`: in-place Fisher–Yates driven by the raw
draws of the generator; the `t`-th draw is reduced modulo `i + 1` to give
a position in `[0, i]`. -/
def npShuffle (draws : Nat → Nat) (l : List α) : List α :=
  (fyPasses l.length).foldl (fun acc ti => swapIdx acc ti.2 (draws ti.1 % (ti.2 + 1))) l

/-- `shuffle_in_unison(a, b)`: the generator state is saved before
shuffling `a` and restored before shuffling `b`, so both shuffles consume
the identical stream of draws. -/
def shuffle_in_unison (draws : Nat → Nat) (a : List α) (b : List β) : List α × List β :=
  (npShuffle draws a, npShuffle draws b)

/-! ## Python slicing and `int()` -/

/-- The cut position described by the Python slice bound `k` on a list of
length `len` (negative bounds count from the end, everything clamps). -/
def pyIdx (len : Nat) (k : ℤ) : Nat :=
  if k < 0 then len - (-k).toNat else min k.toNat len

/-- Python `l[:k]`. -/
def pySliceTo (l : List α) (k : ℤ) : List α := l.take (pyIdx l.length k)

/-- Python `l[k:]`. -/
def pySliceFrom (l : List α) (k : ℤ) : List α := l.drop (pyIdx l.length k)

/-- Python `int()` on an exact rational: truncation toward zero. -/
def pyInt (q : ℚ) : ℤ := if q < 0 then ⌈q⌉ else ⌊q⌋

/-! ## MinMaxScaler -/

/-- The parameters `(data_min, data_max)` fitted by
`sklearn.preprocessing.MinMaxScaler` on a column. -/
def minmaxParams (xs : List ℚ) : ℚ × ℚ :=
  match xs with
  | [] => (0, 0)
  | x :: rest => (rest.foldl min x, rest.foldl max x)

/-- `MinMaxScaler().fit_transform` on a column: `(x - min) / (max - min)`,
with a zero data range replaced by 1 (sklearn's `_handle_zeros_in_scale`),
which sends a constant column to `0`. -/
def minmaxScale (xs : List ℚ) : List ℚ :=
  let p := minmaxParams xs
  xs.map (fun v => if p.2 = p.1 then 0 else (v - p.1) / (p.2 - p.1))

/-! ## The windowing loop -/

/-- `collections.deque(maxlen = n).append`: keep the last `n` elements. -/
def dequePush (n : Nat) (l : List α) (x : α) : List α := (l ++ [x]).rtake n

/-- One iteration of the windowing loop of `load_data`: push the row onto
the deque and, when the deque holds `n` rows, emit the pair
`(window, target)` where the target is the `future` value zipped with the
row just pushed (the window's last row). -/
def windowStep (n : Nat) (st : List R × List (List R × T)) (z : R × T) :
    List R × List (List R × T) :=
  let d := dequePush n st.1 z.1
  (d, if d.length = n then st.2 ++ [(d, z.2)] else st.2)

/-- The whole windowing loop: final deque and emitted pairs. -/
def windowScan (n : Nat) (zs : List (R × T)) : List R × List (List R × T) :=
  zs.foldl (windowStep n) ([], [])

/-! ## The pieces of `load_data` -/

/-- `if "date" not in df.columns: df["date"] = df.index`. -/
def withDate (df : Frame) : Frame :=
  if df.columns.contains "date" then df else df.setCol "date" df.index

/-- One step of the scaling loop: fit a scaler on the column and
overwrite the column with its scaled values, recording the scaler. -/
def scaleStep (st : Frame × List (String × (ℚ × ℚ))) (c : String) :
    Frame × List (String × (ℚ × ℚ)) :=
  (st.1.setCol c (minmaxScale (st.1.getCol c)), st.2 ++ [(c, minmaxParams (st.1.getCol c))])

/-- The scaling loop over all feature columns, returning the scaled frame
and the per-column scaler map. -/
def scaleAll (df : Frame) (fc : List String) : Frame × List (String × (ℚ × ℚ)) :=
  fc.foldl scaleStep (df, [])

/-- The frame after the date-column insertion and (optional) in-place
scaling, i.e. the state of `df` when `future` is computed. -/
def scaledFrame (df : Frame) (cfg : Config) (fc : List String) : Frame :=
  if cfg.scale then (scaleAll (withDate df) fc).1 else withDate df

/-- The number of rows that survive `df.dropna()`: the rows whose shifted
`future` value exists, i.e. all but the last `lookup_step` rows. -/
def usableRows (df : Frame) (cfg : Config) : Nat := df.nrows - cfg.lookup_step

/-- Entry `i` of a column, 0 out of range (never read out of range). -/
def colAt (df : Frame) (c : String) (i : Nat) : ℚ := (df.getCol c).getD i 0

/-- Row `i` of `df[feature_columns]`. -/
def featRow (df : Frame) (fc : List String) (i : Nat) : List ℚ :=
  fc.map (fun c => colAt df c i)

/-- Row `i` of `df[feature_columns + ["date"]].values`: the feature
vector with the date appended as last component. -/
def entryRow (df : Frame) (fc : List String) (i : Nat) : List ℚ :=
  featRow df fc i ++ [colAt df "date" i]

/-- `np.array(df[feature_columns].tail(lookup_step))`, captured before
`dropna`. -/
def lastTail (df : Frame) (cfg : Config) (fc : List String) : List (List ℚ) :=
  ((List.range df.nrows).map (featRow (scaledFrame df cfg fc) fc)).rtake cfg.lookup_step

/-- The rows of `df[feature_columns + ["date"]].values` after `dropna`. -/
def entriesOf (df : Frame) (cfg : Config) (fc : List String) : List (List ℚ) :=
  (List.range (usableRows df cfg)).map (entryRow (scaledFrame df cfg fc) fc)

/-- The values of `df['future']` after `dropna`: the (possibly scaled)
`adjclose` value `lookup_step` rows later. -/
def targetsOf (df : Frame) (cfg : Config) (fc : List String) : List ℚ :=
  (List.range (usableRows df cfg)).map
    (fun i => colAt (scaledFrame df cfg fc) "adjclose" (i + cfg.lookup_step))

/-- `sequence_data`: the emitted `(window, target)` pairs. -/
def seqData (df : Frame) (cfg : Config) (fc : List String) : List (List (List ℚ) × ℚ) :=
  (windowScan cfg.n_steps ((entriesOf df cfg fc).zip (targetsOf df cfg fc))).2

/-- `last_sequence`: the final deque truncated to the feature columns,
concatenated with the pre-`dropna` tail rows. -/
def lastSeqOf (df : Frame) (cfg : Config) (fc : List String) : List (List ℚ) :=
  ((windowScan cfg.n_steps ((entriesOf df cfg fc).zip (targetsOf df cfg fc))).1).map
    (fun s => s.take fc.length) ++ lastTail df cfg fc

/-- The caller's data frame at the moment `load_data` returns: the passed
frame is aliased (`df = ticker`, no copy) and has been scaled in place,
given `date` and `future` columns, and truncated by `dropna`. -/
def dfAfter (df : Frame) (cfg : Config) (fc : List String) : Frame :=
  ((scaledFrame df cfg fc).takeRows (usableRows df cfg)).setCol "future" (targetsOf df cfg fc)

/-- `sklearn.model_selection.train_test_split` on two aligned arrays:
validates `test_size`, takes `n_test = ceil(test_size * n)` samples for
the test split, errors when the train split would be empty; with
`shuffle` the split is read off a drawn permutation of the indices
(test indices first), without it the arrays are sliced in order. -/
def train_test_split (X : List A) (y : List B) (dA : A) (dB : B) (t : ℚ) (shuf : Bool)
    (perm : List Nat) : Except Err (List A × List A × List B × List B) :=
  let n := X.length
  if 0 < t ∧ t < 1 then
    let n_test := (⌈t * (n : ℚ)⌉).toNat
    let n_train := n - n_test
    if n_train = 0 then .error .valueError
    else if shuf then
      let test_idx := perm.take n_test
      let train_idx := (perm.drop n_test).take n_train
      .ok (train_idx.map (fun i => X.getD i dA), test_idx.map (fun i => X.getD i dA),
           train_idx.map (fun i => y.getD i dB), test_idx.map (fun i => y.getD i dB))
    else
      .ok (X.take n_train, X.drop n_train, y.take n_train, y.drop n_train)
  else .error .valueError

/-- The `split_by_date` branch: chronological slicing at
`int((1 - test_size) * len(X))`, then an optional in-place co-shuffle of
each split (the second `shuffle_in_unison` call sees the generator state
left by the first, which consumed `len - 1` draws). -/
def chronoSplit (cfg : Config) (draws : Nat → Nat) (X : List A) (y : List B) :
    List A × List A × List B × List B :=
  let train_samples : ℤ := pyInt ((1 - cfg.test_size) * (X.length : ℚ))
  let Xtr := pySliceTo X train_samples
  let ytr := pySliceTo y train_samples
  let Xte := pySliceFrom X train_samples
  let yte := pySliceFrom y train_samples
  if cfg.shuffle then
    let p1 := shuffle_in_unison draws Xtr ytr
    let p2 := shuffle_in_unison (fun t2 => draws (Xtr.length - 1 + t2)) Xte yte
    (p1.1, p2.1, p1.2, p2.2)
  else (Xtr, Xte, ytr, yte)

/-- The train/test partition of `load_data` (either branch). -/
def splitArrays (cfg : Config) (draws : Nat → Nat) (permFn : Nat → List Nat)
    (X : List (List (List ℚ))) (y : List ℚ) :
    Except Err (List (List (List ℚ)) × List (List (List ℚ)) × List ℚ × List ℚ) :=
  if cfg.split_by_date then .ok (chronoSplit cfg draws X y)
  else train_test_split X y [] 0 cfg.test_size cfg.shuffle (permFn X.length)

/-- The value `load_data` builds in `result`. -/
structure LoadResult where
  df : Frame
  column_scaler : List (String × (ℚ × ℚ))
  last_sequence : List (List ℚ)
  X_train : List (List (List ℚ))
  y_train : List ℚ
  X_test : List (List (List ℚ))
  y_test : List ℚ
  test_df : List (ℚ × List ℚ)
deriving DecidableEq

/-- The rows of a frame as `(index value, column values)` pairs. -/
def frameRows (df : Frame) : List (ℚ × List ℚ) :=
  (List.range df.nrows).map
    (fun i => (df.index.getD i 0, df.cols.map (fun p => p.2.getD i 0)))

/-- `df.loc[dates]`: for each date in order, all rows carrying it. -/
def locRows (df : Frame) (dates : List ℚ) : List (ℚ × List ℚ) :=
  dates.foldr (fun d acc => (frameRows df).filter (fun r => decide (r.1 = d)) ++ acc) []

/-- `test_df[~test_df.index.duplicated(keep='first')]`. -/
def dedupFirstAux (seen : List ℚ) : List (ℚ × List ℚ) → List (ℚ × List ℚ)
  | [] => []
  | r :: rest =>
      if seen.any (fun x => decide (x = r.1)) then dedupFirstAux seen rest
      else r :: dedupFirstAux (r.1 :: seen) rest

/-- The tail of `load_data` once the split is done: the anchor-date
extraction `X_test[:, -1, -1]` raises `IndexError` when no window was
emitted (`X` is then a 1-D empty array); otherwise the test rows are
recovered from the unscaled copy, the date tag is cut off the sequences
and the result dictionary is assembled.  The second component of the
returned pair is the caller's frame after the call. -/
def loadDataFinish (ticker : Frame) (cfg : Config) (fc : List String)
    (t4 : List (List (List ℚ)) × List (List (List ℚ)) × List ℚ × List ℚ) :
    Except Err (LoadResult × Frame) :=
  if (seqData ticker cfg fc).isEmpty then .error .indexError
  else
    let Xte := t4.2.1
    let dates := Xte.map (fun s => (s.getLastD []).getLastD 0)
    .ok ({ df := ticker,
           column_scaler := if cfg.scale then (scaleAll (withDate ticker) fc).2 else [],
           last_sequence := lastSeqOf ticker cfg fc,
           X_train := t4.1.map (fun s => s.map (fun r => r.take fc.length)),
           y_train := t4.2.2.1,
           X_test := Xte.map (fun s => s.map (fun r => r.take fc.length)),
           y_test := t4.2.2.2,
           test_df := dedupFirstAux [] (locRows ticker dates) },
         dfAfter ticker cfg fc)

/-- The body of `load_data` after the column assertions: `KeyError` if
the `adjclose` column read by the `future` computation is absent,
otherwise window, split and finish. -/
def loadDataBody (ticker : Frame) (cfg : Config) (fc : List String) (draws : Nat → Nat)
    (permFn : Nat → List Nat) : Except Err (LoadResult × Frame) :=
  if ticker.columns.contains "adjclose" then
    match splitArrays cfg draws permFn ((seqData ticker cfg fc).map Prod.fst)
        ((seqData ticker cfg fc).map Prod.snd) with
    | .error e => .error e
    | .ok t4 => loadDataFinish ticker cfg fc t4
  else .error (.keyError "adjclose")

/-- `load_data` on a caller-supplied frame: the `assert col in df.columns`
loop fails on the first missing feature column, then the body runs. -/
def loadData (ticker : Frame) (cfg : Config) (fc : List String) (draws : Nat → Nat)
    (permFn : Nat → List Nat) : Except Err (LoadResult × Frame) :=
  match fc.find? (fun c => !(ticker.columns.contains c)) with
  | some c => .error (.missingColumn c)
  | none => loadDataBody ticker cfg fc draws permFn

/-! ## Concrete inputs used to evaluate the embedding -/

/-- A two-feature column selection. -/
def fcW : List String := ["adjclose", "volume"]

/-- The default feature columns of `load_data`. -/
def fcDefault : List String := ["adjclose", "volume", "open", "high", "low"]

/-- A six-row table with strictly increasing dates. -/
def sampleFrame : Frame :=
  ⟨[0, 1, 2, 3, 4, 5],
   [("adjclose", [10, 11, 12, 13, 14, 15]),
    ("volume", [100, 101, 102, 103, 104, 105])]⟩

/-- A two-row table. -/
def frame2 : Frame :=
  ⟨[0, 1], [("adjclose", [10, 11]), ("volume", [100, 101])]⟩

/-- A 100-row table with strictly increasing dates, one value per cell. -/
def frame100 : Frame :=
  ⟨(List.range 100).map (fun i => (i : ℚ)),
   [("adjclose", (List.range 100).map (fun i => (i : ℚ) + 10)),
    ("volume", (List.range 100).map (fun i => (i : ℚ) + 1000)),
    ("open", (List.range 100).map (fun i => (i : ℚ) + 20)),
    ("high", (List.range 100).map (fun i => (i : ℚ) + 30)),
    ("low", (List.range 100).map (fun i => (i : ℚ) + 5))]⟩

/-- Two windows, one-step lookup, chronological halves, no shuffling. -/
def cfgW : Config :=
  { n_steps := 2, scale := false, shuffle := false, lookup_step := 1,
    split_by_date := true, test_size := 1/2 }

/-- `cfgW` with windows longer than the usable data. -/
def cfgN5 : Config :=
  { n_steps := 5, scale := false, shuffle := false, lookup_step := 1,
    split_by_date := true, test_size := 1/2 }

/-- The configuration of the specification's worked example. -/
def cfg100 : Config :=
  { n_steps := 5, scale := false, shuffle := false, lookup_step := 1,
    split_by_date := true, test_size := 1/5 }

/-- A degenerate random stream. -/
def drawsZ : Nat → Nat := fun _ => 0

/-- A nontrivial random stream. -/
def drawsW : Nat → Nat := fun k => k + 2

/-- The identity permutation for each length. -/
def permId : Nat → List Nat := fun k => List.range k

/-! ## List facts about right-takes -/

lemma length_rtake (l : List α) (n : Nat) : (l.rtake n).length = min n l.length := by
  simp only [List.rtake, List.length_drop]
  omega

lemma rtake_append_single (l : List α) (x : α) (n : Nat) :
    (l.rtake n ++ [x]).rtake n = (l ++ [x]).rtake n := by
  rcases n with _ | m
  · simp [List.rtake_zero]
  · simp only [List.rtake_eq_reverse_take_reverse, List.reverse_append, List.reverse_cons,
      List.reverse_nil, List.nil_append, List.reverse_reverse, List.singleton_append,
      List.take_succ_cons, List.take_take]
    simp [Nat.min_def]

/-! ## The closed form of the windowing loop -/

lemma windowScan_append (n : Nat) (zs : List (R × T)) (z : R × T) :
    windowScan n (zs ++ [z]) = windowStep n (windowScan n zs) z := by
  simp [windowScan, List.foldl_append]

lemma windowScan_fst (n : Nat) (zs : List (R × T)) :
    (windowScan n zs).1 = (zs.map Prod.fst).rtake n := by
  induction zs using List.reverseRecOn with
  | nil => simp [windowScan, List.rtake]
  | append_singleton l z ih =>
      rw [windowScan_append, windowStep]
      simp only [ih, dequePush, List.map_append, List.map_cons, List.map_nil]
      exact rtake_append_single _ _ _

lemma windowScan_snd (n : Nat) (d0 : T) (zs : List (R × T)) :
    (windowScan n zs).2 =
      (List.range zs.length).filterMap (fun j =>
        if n ≤ j + 1 then
          some (((zs.map Prod.fst).take (j + 1)).rtake n, (zs.map Prod.snd).getD j d0)
        else none) := by
  induction zs using List.reverseRecOn with
  | nil => simp [windowScan]
  | append_singleton l z ih =>
      have hd : dequePush n (windowScan n l).1 z.1 = ((l ++ [z]).map Prod.fst).rtake n := by
        rw [windowScan_fst, dequePush]
        simp only [List.map_append, List.map_cons, List.map_nil]
        exact rtake_append_single _ _ _
      have hfirst : (List.range l.length).filterMap
            (fun j => if n ≤ j + 1 then
              some ((((l ++ [z]).map Prod.fst).take (j + 1)).rtake n,
                    ((l ++ [z]).map Prod.snd).getD j d0) else none)
          = (windowScan n l).2 := by
        rw [ih]
        apply List.filterMap_congr
        intro j hj
        have hjl : j < l.length := List.mem_range.mp hj
        have h1 : ((l ++ [z]).map Prod.fst).take (j + 1) = (l.map Prod.fst).take (j + 1) := by
          rw [List.map_append]
          exact List.take_append_of_le_length (by simpa using hjl)
        have h2 : ((l ++ [z]).map Prod.snd).getD j d0 = (l.map Prod.snd).getD j d0 := by
          rw [List.map_append]
          exact List.getD_append _ _ _ _ (by simpa using hjl)
        rw [h1, h2]
      have htake : ((l ++ [z]).map Prod.fst).take (l.length + 1) = (l ++ [z]).map Prod.fst :=
        List.take_of_length_le (by simp)
      have hgetD : ((l ++ [z]).map Prod.snd).getD l.length d0 = z.2 := by
        rw [List.map_append]
        rw [List.getD_append_right _ _ _ _ (by simp)]
        simp
      have hlenz : (l ++ [z]).length = l.length + 1 := by simp
      rw [windowScan_append]
      simp only [windowStep, hd, hlenz, List.range_succ, List.filterMap_append, hfirst]
      by_cases hc : n ≤ l.length + 1
      · have hlen : (((l ++ [z]).map Prod.fst).rtake n).length = n := by
          rw [length_rtake]
          simp only [List.length_map, List.length_append, List.length_cons, List.length_nil]
          omega
        rw [if_pos hlen]
        simp only [List.filterMap_cons, List.filterMap_nil, if_pos hc, htake, hgetD]
      · have hlen : ¬ (((l ++ [z]).map Prod.fst).rtake n).length = n := by
          rw [length_rtake]
          simp only [List.length_map, List.length_append, List.length_cons, List.length_nil]
          omega
        rw [if_neg hlen]
        simp only [List.filterMap_cons, List.filterMap_nil, if_neg hc, List.append_nil]

lemma length_filterMap_window (L n : Nat) (g : Nat → β) :
    ((List.range L).filterMap (fun j => if n ≤ j + 1 then some (g j) else none)).length
      = L - (n - 1) := by
  induction L with
  | zero => simp
  | succ L ih =>
      rw [List.range_succ, List.filterMap_append, List.length_append, ih]
      by_cases hc : n ≤ L + 1
      · simp only [List.filterMap_cons, List.filterMap_nil, if_pos hc, List.length_cons,
          List.length_nil]
        omega
      · simp only [List.filterMap_cons, List.filterMap_nil, if_neg hc, List.length_nil]
        omega

lemma filterMap_window_eq_map (L n : Nat) (h : 1 ≤ n) (g : Nat → β) :
    (List.range L).filterMap (fun j => if n ≤ j + 1 then some (g j) else none)
      = (List.range (L - (n - 1))).map (fun m => g (n - 1 + m)) := by
  rcases Nat.lt_or_ge L (n - 1) with hL | hL
  · have h2 : L - (n - 1) = 0 := by omega
    rw [h2]
    simp only [List.range_zero, List.map_nil]
    rw [List.filterMap_eq_nil_iff]
    intro j hj
    have hjL : j < L := List.mem_range.mp hj
    rw [if_neg (by omega)]
  · conv_lhs => rw [show L = (n - 1) + (L - (n - 1)) by omega, List.range_add,
      List.filterMap_append]
    have e1 : (List.range (n - 1)).filterMap
        (fun j => if n ≤ j + 1 then some (g j) else none) = [] := by
      rw [List.filterMap_eq_nil_iff]
      intro j hj
      have hjn : j < n - 1 := List.mem_range.mp hj
      rw [if_neg (by omega)]
    rw [e1, List.nil_append, List.filterMap_map]
    have e2 : ∀ m ∈ List.range (L - (n - 1)),
        ((fun j => if n ≤ j + 1 then some (g j) else none) ∘ (fun x => n - 1 + x)) m
          = some (g (n - 1 + m)) := by
      intro m _
      simp only [Function.comp]
      rw [if_pos (by omega)]
    rw [List.filterMap_congr e2]
    rw [show (fun m => some (g (n - 1 + m))) = some ∘ (fun m => g (n - 1 + m)) from rfl,
      List.filterMap_eq_map]

lemma getD_map_range (f : Nat → β) (u j : Nat) (d : β) (h : j < u) :
    ((List.range u).map f).getD j d = f j := by
  rw [List.getD_eq_getElem?_getD, List.getElem?_map, List.getElem?_range h]
  rfl

/-! ## The closed form of `sequence_data` -/

lemma zip_entries_targets (df : Frame) (cfg : Config) (fc : List String) :
    (entriesOf df cfg fc).zip (targetsOf df cfg fc)
      = (List.range (usableRows df cfg)).map
          (fun i => (entryRow (scaledFrame df cfg fc) fc i,
                     colAt (scaledFrame df cfg fc) "adjclose" (i + cfg.lookup_step))) := by
  rw [entriesOf, targetsOf, List.zip_map']

lemma seqData_eq (df : Frame) (cfg : Config) (fc : List String) (h : 1 ≤ cfg.n_steps) :
    seqData df cfg fc
      = (List.range (usableRows df cfg - (cfg.n_steps - 1))).map
          (fun m =>
            (((entriesOf df cfg fc).take (cfg.n_steps - 1 + m + 1)).rtake cfg.n_steps,
             colAt (scaledFrame df cfg fc) "adjclose"
               (cfg.n_steps - 1 + m + cfg.lookup_step))) := by
  rw [seqData, windowScan_snd cfg.n_steps 0]
  rw [show ((entriesOf df cfg fc).zip (targetsOf df cfg fc)).map Prod.fst
        = entriesOf df cfg fc by
      rw [zip_entries_targets, List.map_map, entriesOf]
      rfl]
  rw [show ((entriesOf df cfg fc).zip (targetsOf df cfg fc)).map Prod.snd
        = targetsOf df cfg fc by
      rw [zip_entries_targets, List.map_map, targetsOf]
      rfl]
  rw [show ((entriesOf df cfg fc).zip (targetsOf df cfg fc)).length
        = usableRows df cfg by
      rw [zip_entries_targets, List.length_map, List.length_range]]
  have hcong : ∀ j ∈ List.range (usableRows df cfg),
      (if cfg.n_steps ≤ j + 1 then
        some (((entriesOf df cfg fc).take (j + 1)).rtake cfg.n_steps,
              (targetsOf df cfg fc).getD j 0)
       else none)
      = (if cfg.n_steps ≤ j + 1 then
          some (((entriesOf df cfg fc).take (j + 1)).rtake cfg.n_steps,
                colAt (scaledFrame df cfg fc) "adjclose" (j + cfg.lookup_step))
         else none) := by
    intro j hj
    have hju : j < usableRows df cfg := List.mem_range.mp hj
    rw [targetsOf, getD_map_range _ _ _ _ hju]
  rw [List.filterMap_congr hcong]
  rw [filterMap_window_eq_map _ _ h]

lemma seqData_length (df : Frame) (cfg : Config) (fc : List String) :
    (seqData df cfg fc).length = usableRows df cfg - (cfg.n_steps - 1) := by
  rw [seqData, windowScan_snd cfg.n_steps 0,
    show ((entriesOf df cfg fc).zip (targetsOf df cfg fc)).length = usableRows df cfg by
      rw [zip_entries_targets, List.length_map, List.length_range]]
  exact length_filterMap_window _ _ _

/-! ## Frame lemmas -/

lemma index_setCol (df : Frame) (c : String) (v : List ℚ) :
    (df.setCol c v).index = df.index := by
  rw [Frame.setCol]
  split <;> rfl

lemma index_withDate (df : Frame) : (withDate df).index = df.index := by
  rw [withDate]
  split
  · rfl
  · exact index_setCol _ _ _

lemma scaleAll_fst_index (fc : List String) :
    ∀ st : Frame × List (String × (ℚ × ℚ)), ((fc.foldl scaleStep st).1).index = st.1.index := by
  induction fc with
  | nil => intro st; rfl
  | cons c cs ih =>
      intro st
      rw [List.foldl_cons, ih]
      exact index_setCol _ _ _

lemma index_scaledFrame (df : Frame) (cfg : Config) (fc : List String) :
    (scaledFrame df cfg fc).index = df.index := by
  rw [scaledFrame]
  split
  · rw [scaleAll, scaleAll_fst_index, index_withDate]
  · exact index_withDate df

lemma nrows_scaledFrame (df : Frame) (cfg : Config) (fc : List String) :
    (scaledFrame df cfg fc).nrows = df.nrows := by
  rw [Frame.nrows, Frame.nrows, index_scaledFrame]

lemma getCol_setCol_self (df : Frame) (c : String) (v : List ℚ) :
    (df.setCol c v).getCol c = v := by
  rw [Frame.setCol]
  split
  · next hany =>
      rw [Frame.getCol]
      have hfind : ∀ l : List (String × List ℚ), l.any (fun p => p.1 == c) = true →
          (l.map (fun p => if p.1 == c then (p.1, v) else p)).find? (fun p => p.1 == c)
            = some (c, v) := by
        intro l
        induction l with
        | nil => intro h; simp at h
        | cons p ps ih =>
            intro h
            by_cases hp : (p.1 == c) = true
            · have hc : p.1 = c := eq_of_beq hp
              simp only [List.map_cons, if_pos hp]
              rw [List.find?_cons_of_pos _ (by simpa using hp), hc]
            · simp only [List.map_cons, if_neg hp]
              rw [List.find?_cons_of_neg _ (by simpa using hp)]
              apply ih
              simp only [List.any_cons, Bool.or_eq_true] at h
              rcases h with h | h
              · exact absurd h hp
              · exact h
      rw [hfind df.cols hany]
  · next hany =>
      rw [Frame.getCol, List.find?_append]
      have h1 : df.cols.find? (fun p => p.1 == c) = none := by
        rw [List.find?_eq_none]
        intro p hp hpc
        exact hany (List.any_eq_true.mpr ⟨p, hp, hpc⟩)
      rw [h1]
      simp

lemma getCol_setCol_ne (df : Frame) (c c2 : String) (v : List ℚ) (hne : c ≠ c2) :
    (df.setCol c2 v).getCol c = df.getCol c := by
  rw [Frame.setCol]
  split
  · rw [Frame.getCol, Frame.getCol]
    have hfind : ∀ l : List (String × List ℚ),
        (l.map (fun p => if p.1 == c2 then (p.1, v) else p)).find? (fun p => p.1 == c)
          = l.find? (fun p => p.1 == c) := by
      intro l
      induction l with
      | nil => rfl
      | cons p ps ih =>
          by_cases hp2 : (p.1 == c2) = true
          · have hc2 : p.1 = c2 := eq_of_beq hp2
            have hpc : ¬ ((p.1 == c) = true) := by
              intro hx
              exact hne ((eq_of_beq hx) ▸ hc2 ▸ rfl)
            simp only [List.map_cons, if_pos hp2]
            rw [List.find?_cons_of_neg _ (by simpa using hpc),
              List.find?_cons_of_neg _ (by simpa using hpc)]
            exact ih
          · simp only [List.map_cons, if_neg hp2]
            by_cases hpc : (p.1 == c) = true
            · rw [List.find?_cons_of_pos _ (by simpa using hpc),
                List.find?_cons_of_pos _ (by simpa using hpc)]
            · rw [List.find?_cons_of_neg _ (by simpa using hpc),
                List.find?_cons_of_neg _ (by simpa using hpc)]
              exact ih
    rw [hfind df.cols]
  · rw [Frame.getCol, Frame.getCol, List.find?_append]
    have h2 : ([(c2, v)].find? (fun p => p.1 == c)) = none := by
      rw [List.find?_eq_none]
      intro p hp hpc
      simp only [List.mem_singleton] at hp
      subst hp
      exact hne ((eq_of_beq hpc).symm)
    rw [h2]
    cases df.cols.find? (fun p => p.1 == c) <;> rfl

lemma getCol_scaleAll_notMem (fc : List String) (c : String) (h : c ∉ fc) :
    ∀ st : Frame × List (String × (ℚ × ℚ)),
      ((fc.foldl scaleStep st).1).getCol c = st.1.getCol c := by
  induction fc with
  | nil => intro st; rfl
  | cons c2 cs ih =>
      intro st
      rw [List.foldl_cons, ih (fun hmem => h (List.mem_cons_of_mem _ hmem))]
      exact getCol_setCol_ne _ _ _ _ (fun he => h (he ▸ List.mem_cons_self _ _))

lemma getCol_date_scaledFrame (df : Frame) (cfg : Config) (fc : List String)
    (hdate : "date" ∉ df.columns) (hfc : "date" ∉ fc) :
    (scaledFrame df cfg fc).getCol "date" = df.index := by
  have hwd : (withDate df).getCol "date" = df.index := by
    rw [withDate]
    have hcont : df.columns.contains "date" = false := by
      rw [← Bool.not_eq_true]
      intro hx
      exact hdate (List.elem_iff.mp hx)
    rw [hcont]
    simp only [Bool.false_eq_true, if_false]
    exact getCol_setCol_self _ _ _
  rw [scaledFrame]
  split
  · rw [scaleAll, getCol_scaleAll_notMem fc "date" hfc, hwd]
  · exact hwd

lemma mem_columns_setCol_self (df : Frame) (c : String) (v : List ℚ) :
    c ∈ (df.setCol c v).columns := by
  rw [Frame.setCol]
  split
  · next hany =>
      rw [Frame.columns]
      obtain ⟨p, hp, hpc⟩ := List.any_eq_true.mp hany
      refine List.mem_map.mpr ⟨(p.1, v), ?_, (eq_of_beq hpc)⟩
      refine List.mem_map.mpr ⟨p, hp, ?_⟩
      rw [if_pos hpc]
  · rw [Frame.columns, List.map_append]
    exact List.mem_append_right _ (by simp)

lemma columns_takeRows (df : Frame) (m : Nat) :
    (df.takeRows m).columns = df.columns := by
  rw [Frame.takeRows, Frame.columns, Frame.columns]
  simp

lemma mem_columns_dfAfter (df : Frame) (cfg : Config) (fc : List String) :
    "future" ∈ (dfAfter df cfg fc).columns :=
  mem_columns_setCol_self _ _ _

/-! ## Lengths of the produced pieces -/

lemma length_entriesOf (df : Frame) (cfg : Config) (fc : List String) :
    (entriesOf df cfg fc).length = usableRows df cfg := by
  rw [entriesOf, List.length_map, List.length_range]

lemma length_lastTail (df : Frame) (cfg : Config) (fc : List String) :
    (lastTail df cfg fc).length = min cfg.lookup_step df.nrows := by
  rw [lastTail, length_rtake, List.length_map, List.length_range]

lemma lastSeqOf_length (df : Frame) (cfg : Config) (fc : List String) :
    (lastSeqOf df cfg fc).length
      = min cfg.n_steps (usableRows df cfg) + min cfg.lookup_step df.nrows := by
  rw [lastSeqOf, List.length_append, List.length_map, windowScan_fst, length_rtake,
    length_lastTail, List.length_map,
    show ((entriesOf df cfg fc).zip (targetsOf df cfg fc)).length = usableRows df cfg by
      rw [zip_entries_targets, List.length_map, List.length_range]]

/-! ## Positional access helpers -/

lemma getLastD_eq_getD (l : List α) : ∀ d, l.getLastD d = l.getD (l.length - 1) d := by
  induction l with
  | nil => intro d; rfl
  | cons a l ih =>
      intro d
      rw [List.getLastD_cons, ih a]
      cases l with
      | nil => rfl
      | cons b m => simp [List.getD_cons_succ]

lemma getD_drop (l : List α) (m i : Nat) (d : α) :
    (l.drop m).getD i d = l.getD (m + i) d := by
  rw [List.getD_eq_getElem?_getD, List.getD_eq_getElem?_getD, List.getElem?_drop]

lemma getD_take (l : List α) (k i : Nat) (d : α) (h : i < k) :
    (l.take k).getD i d = l.getD i d := by
  rw [List.getD_eq_getElem?_getD, List.getD_eq_getElem?_getD,
    List.getElem?_take_of_lt h]

lemma getLastD_rtake_take (l : List α) (m n : Nat) (h1 : 1 ≤ n) (h2 : m + n ≤ l.length)
    (d : α) : ((l.take (m + n)).rtake n).getLastD d = l.getD (m + n - 1) d := by
  have hlen : (l.take (m + n)).length = m + n := by
    rw [List.length_take]
    omega
  rw [List.rtake, hlen, show m + n - n = m by omega, getLastD_eq_getD,
    List.length_drop, hlen, getD_drop, getD_take _ _ _ _ (by omega)]
  congr 1
  omega

lemma getLastD_entryRow (df : Frame) (fc : List String) (i : Nat) :
    (entryRow df fc i).getLastD 0 = colAt df "date" i := by
  rw [entryRow]
  exact List.getLastD_concat _ _ _

/-! ## Element-wise description of `sequence_data` -/

lemma seqData_getD (df : Frame) (cfg : Config) (fc : List String) (h : 1 ≤ cfg.n_steps)
    (m : Nat) (hm : m < (seqData df cfg fc).length) :
    (seqData df cfg fc).getD m ([], 0)
      = (((entriesOf df cfg fc).take (cfg.n_steps - 1 + m + 1)).rtake cfg.n_steps,
         colAt (scaledFrame df cfg fc) "adjclose"
           (cfg.n_steps - 1 + m + cfg.lookup_step)) := by
  have hmu : m < usableRows df cfg - (cfg.n_steps - 1) := by
    rw [seqData_length] at hm
    exact hm
  rw [seqData_eq df cfg fc h, getD_map_range _ _ _ _ hmu]

lemma seqData_window_last (df : Frame) (cfg : Config) (fc : List String)
    (h : 1 ≤ cfg.n_steps) (m : Nat) (hm : m < (seqData df cfg fc).length) :
    ((seqData df cfg fc).getD m ([], 0)).1.getLastD []
      = entryRow (scaledFrame df cfg fc) fc (cfg.n_steps - 1 + m) := by
  have hmu : m < usableRows df cfg - (cfg.n_steps - 1) := by
    rw [seqData_length] at hm
    exact hm
  rw [seqData_getD df cfg fc h m hm]
  rw [show cfg.n_steps - 1 + m + 1 = m + cfg.n_steps by omega]
  rw [getLastD_rtake_take _ _ _ h (by rw [length_entriesOf]; omega)]
  rw [entriesOf, getD_map_range _ _ _ _ (by omega)]
  congr 1
  omega

/-! ## The Fisher–Yates shuffle applies one index permutation -/

lemma length_swapIdx (l : List α) (i j : Nat) : (swapIdx l i j).length = l.length := by
  unfold swapIdx
  split <;> simp

lemma swapIdx_perm (l : List α) (i j : Nat) : (swapIdx l i j).Perm l := by
  classical
  unfold swapIdx
  split
  · next a b hi hj =>
      obtain ⟨hi2, ha⟩ := List.get?_eq_some.mp hi
      obtain ⟨hj2, hb⟩ := List.get?_eq_some.mp hj
      have hli : l[i] = a := by rw [← ha]; simp [List.get_eq_getElem]
      have hlj : l[j] = b := by rw [← hb]; simp [List.get_eq_getElem]
      rw [List.perm_iff_count]
      intro x
      have hCa : (a == x) = true → 1 ≤ List.count x l := by
        intro hbeq
        have hmem : x ∈ l := (eq_of_beq hbeq) ▸ hli ▸ List.getElem_mem hi2
        simpa [List.count_pos_iff] using hmem
      have hjset : j < (l.set i b).length := by simpa using hj2
      rw [List.count_set _ _ _ _ hjset, List.count_set _ _ _ _ hi2]
      by_cases hij : i = j
      · subst hij
        rw [hi] at hj
        have hab : a = b := by injection hj
        subst hab
        rw [List.getElem_set_self (by simpa using hi2), hli]
        by_cases e1 : (a == x) = true
        · have h1 := hCa e1
          simp only [if_pos e1]
          omega
        · simp only [if_neg e1]
          omega
      · rw [List.getElem_set_ne hij hjset, hli, hlj]
        by_cases e1 : (a == x) = true <;> by_cases e2 : (b == x) = true
        · have h1 := hCa e1
          simp only [if_pos e1, if_pos e2]
          omega
        · have h1 := hCa e1
          simp only [if_pos e1, if_neg e2]
          omega
        · simp only [if_neg e1, if_pos e2]
          omega
        · simp only [if_neg e1, if_neg e2]
          omega
  · exact List.Perm.refl l

lemma map_swapIdx (h : α → β) (l : List α) (i j : Nat) :
    (swapIdx l i j).map h = swapIdx (l.map h) i j := by
  unfold swapIdx
  rcases hi : l.get? i with _ | a <;> rcases hj : l.get? j with _ | b <;>
    simp only [List.get?_eq_getElem?] at hi hj <;>
    simp [swapIdx, List.get?_eq_getElem?, List.getElem?_map, hi, hj, List.map_set]

lemma foldl_swapIdx_length (f g : Nat × Nat → Nat) (ps : List (Nat × Nat)) :
    ∀ l : List α, (ps.foldl (fun acc ti => swapIdx acc (f ti) (g ti)) l).length = l.length := by
  induction ps with
  | nil => intro l; rfl
  | cons p ps ih =>
      intro l
      rw [List.foldl_cons, ih]
      exact length_swapIdx _ _ _

lemma foldl_swapIdx_perm (f g : Nat × Nat → Nat) (ps : List (Nat × Nat)) :
    ∀ l : List α, (ps.foldl (fun acc ti => swapIdx acc (f ti) (g ti)) l).Perm l := by
  induction ps with
  | nil => intro l; exact List.Perm.refl l
  | cons p ps ih =>
      intro l
      rw [List.foldl_cons]
      exact (ih _).trans (swapIdx_perm _ _ _)

lemma foldl_swapIdx_map (h : α → β) (f g : Nat × Nat → Nat) (ps : List (Nat × Nat)) :
    ∀ l : List α, (ps.foldl (fun acc ti => swapIdx acc (f ti) (g ti)) l).map h
      = ps.foldl (fun acc ti => swapIdx acc (f ti) (g ti)) (l.map h) := by
  induction ps with
  | nil => intro l; rfl
  | cons p ps ih =>
      intro l
      rw [List.foldl_cons, List.foldl_cons, ih, map_swapIdx]

lemma length_npShuffle (draws : Nat → Nat) (l : List α) :
    (npShuffle draws l).length = l.length := by
  rw [npShuffle]
  exact foldl_swapIdx_length (fun ti => ti.2) (fun ti => draws ti.1 % (ti.2 + 1)) _ l

lemma npShuffle_perm (draws : Nat → Nat) (l : List α) : (npShuffle draws l).Perm l := by
  rw [npShuffle]
  exact foldl_swapIdx_perm (fun ti => ti.2) (fun ti => draws ti.1 % (ti.2 + 1)) _ l

lemma npShuffle_map (draws : Nat → Nat) (h : α → β) (l : List α) :
    npShuffle draws (l.map h) = (npShuffle draws l).map h := by
  rw [npShuffle, npShuffle, List.length_map]
  exact (foldl_swapIdx_map h (fun ti => ti.2) (fun ti => draws ti.1 % (ti.2 + 1)) _ l).symm

lemma self_eq_map_range_getD (l : List α) (d : α) :
    l = (List.range l.length).map (fun i => l.getD i d) := by
  apply List.ext_getElem
  · simp
  · intro i h1 h2
    simp only [List.getElem_map, List.getElem_range]
    rw [List.getD_eq_getElem _ _ h1]

lemma npShuffle_eq_perm_map (draws : Nat → Nat) (l : List α) (d : α) :
    npShuffle draws l
      = (npShuffle draws (List.range l.length)).map (fun i => l.getD i d) := by
  conv_lhs => rw [self_eq_map_range_getD l d]
  rw [npShuffle_map]

/-! ## The split branches -/

lemma pyIdx_le (len : Nat) (k : ℤ) : pyIdx len k ≤ len := by
  rw [pyIdx]
  split
  · omega
  · exact min_le_right _ _

lemma chronoSplit_shuffle_false {A B : Type} (cfg : Config) (draws : Nat → Nat)
    (X : List A) (y : List B) (hsh : cfg.shuffle = false) :
    chronoSplit cfg draws X y
      = (pySliceTo X (pyInt ((1 - cfg.test_size) * (X.length : ℚ))),
         pySliceFrom X (pyInt ((1 - cfg.test_size) * (X.length : ℚ))),
         pySliceTo y (pyInt ((1 - cfg.test_size) * (X.length : ℚ))),
         pySliceFrom y (pyInt ((1 - cfg.test_size) * (X.length : ℚ)))) := by
  rw [chronoSplit, hsh]
  simp

lemma chronoSplit_sum {A B : Type} (cfg : Config) (draws : Nat → Nat)
    (X : List A) (y : List B) :
    (chronoSplit cfg draws X y).1.length + (chronoSplit cfg draws X y).2.1.length
      = X.length := by
  rw [chronoSplit]
  have hle := pyIdx_le X.length (pyInt ((1 - cfg.test_size) * (X.length : ℚ)))
  split
  · simp only [shuffle_in_unison]
    rw [length_npShuffle, length_npShuffle, pySliceTo, pySliceFrom,
      List.length_take, List.length_drop]
    omega
  · rw [pySliceTo, pySliceFrom, List.length_take, List.length_drop]
    omega

lemma chronoSplit_xy_lengths {A B : Type} (cfg : Config) (draws : Nat → Nat)
    (X : List A) (y : List B) (hxy : X.length = y.length) :
    (chronoSplit cfg draws X y).1.length = (chronoSplit cfg draws X y).2.2.1.length
      ∧ (chronoSplit cfg draws X y).2.1.length = (chronoSplit cfg draws X y).2.2.2.length := by
  rw [chronoSplit]
  split
  · simp only [shuffle_in_unison]
    rw [length_npShuffle, length_npShuffle, length_npShuffle, length_npShuffle,
      pySliceTo, pySliceFrom, pySliceTo, pySliceFrom, List.length_take, List.length_take,
      List.length_drop, List.length_drop, hxy]
    exact ⟨rfl, rfl⟩
  · rw [pySliceTo, pySliceFrom, pySliceTo, pySliceFrom, List.length_take, List.length_take,
      List.length_drop, List.length_drop, hxy]
    exact ⟨rfl, rfl⟩

lemma tts_n_test_le (n : Nat) (t : ℚ) (ht1 : t < 1) :
    (⌈t * (n : ℚ)⌉).toNat ≤ n := by
  have h1 : t * (n : ℚ) ≤ (n : ℚ) := by
    calc t * (n : ℚ) ≤ 1 * (n : ℚ) :=
          mul_le_mul_of_nonneg_right (le_of_lt ht1) (by positivity)
      _ = (n : ℚ) := one_mul _
  have h2 : ⌈t * (n : ℚ)⌉ ≤ (n : ℤ) := by
    rw [Int.ceil_le]
    exact_mod_cast h1
  omega

lemma tts_ok_xy_lengths {A B : Type} (X : List A) (y : List B) (dA : A) (dB : B)
    (t : ℚ) (shuf : Bool) (perm : List Nat) (r : List A × List A × List B × List B)
    (hxy : X.length = y.length)
    (hr : train_test_split X y dA dB t shuf perm = .ok r) :
    r.1.length = r.2.2.1.length ∧ r.2.1.length = r.2.2.2.length := by
  rw [train_test_split] at hr
  by_cases ht : 0 < t ∧ t < 1
  · rw [if_pos ht] at hr
    simp only [] at hr
    by_cases hn : X.length - (⌈t * (X.length : ℚ)⌉).toNat = 0
    · rw [if_pos hn] at hr
      exact absurd hr (by simp)
    · rw [if_neg hn] at hr
      cases hsv : shuf
      · rw [hsv] at hr
        simp only [Bool.false_eq_true, if_false] at hr
        rw [Except.ok.injEq] at hr
        subst hr
        simp [List.length_take, List.length_drop, hxy]
      · rw [hsv] at hr
        simp only [eq_self_iff_true, if_true] at hr
        rw [Except.ok.injEq] at hr
        subst hr
        simp
  · rw [if_neg ht] at hr
    exact absurd hr (by simp)

lemma tts_ok_sum {A B : Type} (X : List A) (y : List B) (dA : A) (dB : B)
    (t : ℚ) (shuf : Bool) (perm : List Nat) (r : List A × List A × List B × List B)
    (hperm : perm.length = X.length)
    (hr : train_test_split X y dA dB t shuf perm = .ok r) :
    r.1.length + r.2.1.length = X.length := by
  rw [train_test_split] at hr
  by_cases ht : 0 < t ∧ t < 1
  · rw [if_pos ht] at hr
    simp only [] at hr
    have hle : (⌈t * (X.length : ℚ)⌉).toNat ≤ X.length :=
      tts_n_test_le X.length t ht.2
    by_cases hn : X.length - (⌈t * (X.length : ℚ)⌉).toNat = 0
    · rw [if_pos hn] at hr
      exact absurd hr (by simp)
    · rw [if_neg hn] at hr
      cases hsv : shuf
      · rw [hsv] at hr
        simp only [Bool.false_eq_true, if_false] at hr
        rw [Except.ok.injEq] at hr
        subst hr
        simp only [List.length_take, List.length_drop]
        omega
      · rw [hsv] at hr
        simp only [eq_self_iff_true, if_true] at hr
        rw [Except.ok.injEq] at hr
        subst hr
        simp only [List.length_map, List.length_take, List.length_drop, hperm]
        omega
  · rw [if_neg ht] at hr
    exact absurd hr (by simp)

lemma splitArrays_ok_xy_lengths (cfg : Config) (draws : Nat → Nat)
    (permFn : Nat → List Nat) (X : List (List (List ℚ))) (y : List ℚ)
    (r : List (List (List ℚ)) × List (List (List ℚ)) × List ℚ × List ℚ)
    (hxy : X.length = y.length)
    (hr : splitArrays cfg draws permFn X y = .ok r) :
    r.1.length = r.2.2.1.length ∧ r.2.1.length = r.2.2.2.length := by
  rw [splitArrays] at hr
  split at hr
  · rw [Except.ok.injEq] at hr
    subst hr
    exact chronoSplit_xy_lengths cfg draws X y hxy
  · exact tts_ok_xy_lengths X y _ _ _ _ _ r hxy hr

lemma splitArrays_ok_sum (cfg : Config) (draws : Nat → Nat)
    (permFn : Nat → List Nat) (X : List (List (List ℚ))) (y : List ℚ)
    (r : List (List (List ℚ)) × List (List (List ℚ)) × List ℚ × List ℚ)
    (hperm : ∀ k, (permFn k).Perm (List.range k))
    (hr : splitArrays cfg draws permFn X y = .ok r) :
    r.1.length + r.2.1.length = X.length := by
  rw [splitArrays] at hr
  split at hr
  · rw [Except.ok.injEq] at hr
    subst hr
    exact chronoSplit_sum cfg draws X y
  · refine tts_ok_sum X y _ _ _ _ _ r ?_ hr
    rw [(hperm X.length).length_eq, List.length_range]

/-! ## Inversion of a successful `load_data` call -/

lemma loadData_ok_inv (df : Frame) (cfg : Config) (fc : List String) (draws : Nat → Nat)
    (permFn : Nat → List Nat) (p : LoadResult × Frame)
    (hok : loadData df cfg fc draws permFn = .ok p) :
    ∃ r4, splitArrays cfg draws permFn ((seqData df cfg fc).map Prod.fst)
            ((seqData df cfg fc).map Prod.snd) = .ok r4
      ∧ seqData df cfg fc ≠ []
      ∧ p.1.X_train = r4.1.map (fun s => s.map (fun r => r.take fc.length))
      ∧ p.1.X_test = r4.2.1.map (fun s => s.map (fun r => r.take fc.length))
      ∧ p.1.y_train = r4.2.2.1
      ∧ p.1.y_test = r4.2.2.2
      ∧ p.1.last_sequence = lastSeqOf df cfg fc
      ∧ p.1.df = df
      ∧ p.2 = dfAfter df cfg fc := by
  rw [loadData] at hok
  rcases hfind : fc.find? (fun c => !(df.columns.contains c)) with _ | c
  · simp only [hfind] at hok
    rw [loadDataBody] at hok
    split at hok
    · rcases hsp : splitArrays cfg draws permFn ((seqData df cfg fc).map Prod.fst)
          ((seqData df cfg fc).map Prod.snd) with e | r4
      · simp only [hsp] at hok
        exact absurd hok (by simp)
      · simp only [hsp] at hok
        rw [loadDataFinish] at hok
        split at hok
        · exact absurd hok (by simp)
        · next hne =>
            rw [Except.ok.injEq] at hok
            subst hok
            refine ⟨r4, rfl, ?_, rfl, rfl, rfl, rfl, rfl, rfl, rfl⟩
            intro hnil
            exact hne (by rw [hnil]; rfl)
    · exact absurd hok (by simp)
  · simp only [hfind] at hok
    exact absurd hok (by simp)

lemma pairwise_lt_getD (l : List ℚ) (hmono : l.Pairwise (· < ·)) (i j : Nat)
    (hij : i < j) (hj : j < l.length) : l.getD i 0 < l.getD j 0 := by
  have hi : i < l.length := lt_trans hij hj
  rw [List.getD_eq_getElem _ _ hi, List.getD_eq_getElem _ _ hj]
  have h2 := List.pairwise_iff_get.mp hmono ⟨i, hi⟩ ⟨j, hj⟩ (Fin.mk_lt_mk.mpr hij)
  simpa [List.get_eq_getElem] using h2

/-! ## The claims -/

/-- C1: for every valid input table and configuration (windows of at
least one row; the random split draws a true permutation), on a
successful call the number of emitted (sequence, target) pairs equals
`max 0 (usable_rows - n_steps + 1)`, and the sizes of the returned train
and test splits sum to that number of pairs. -/
theorem c1_pair_count_and_split_sum (df : Frame) (cfg : Config) (fc : List String)
    (draws : Nat → Nat) (permFn : Nat → List Nat) (p : LoadResult × Frame)
    (h1 : 1 ≤ cfg.n_steps)
    (hperm : ∀ k, (permFn k).Perm (List.range k))
    (hok : loadData df cfg fc draws permFn = .ok p) :
    ((seqData df cfg fc).length : ℤ)
        = max 0 ((usableRows df cfg : ℤ) - cfg.n_steps + 1)
      ∧ p.1.X_train.length + p.1.X_test.length = (seqData df cfg fc).length := by
  obtain ⟨r4, hsp, hne, hXtr, hXte, hytr, hyte, hlast, hdf, hafter⟩ :=
    loadData_ok_inv df cfg fc draws permFn p hok
  constructor
  · rw [seqData_length]
    rcases Nat.le_total (cfg.n_steps - 1) (usableRows df cfg) with hc | hc
    · rw [max_eq_right (by omega)]
      omega
    · rw [max_eq_left (by omega)]
      omega
  · rw [hXtr, hXte, List.length_map, List.length_map]
    have hsum := splitArrays_ok_sum cfg draws permFn _ _ r4 hperm hsp
    rw [List.length_map] at hsum
    exact hsum

/-- C1 witness: the claim instantiated on `sampleFrame` (six rows,
two-row windows, one-step lookup, chronological halves). -/
theorem c1_pair_count_and_split_sum_witness :
    (1 ≤ cfgW.n_steps)
      ∧ (∀ k, (permId k).Perm (List.range k))
      ∧ (match loadData sampleFrame cfgW fcW drawsZ permId with
         | .ok p => ((seqData sampleFrame cfgW fcW).length : ℤ)
               = max 0 ((usableRows sampleFrame cfgW : ℤ) - cfgW.n_steps + 1)
             ∧ p.1.X_train.length + p.1.X_test.length
               = (seqData sampleFrame cfgW fcW).length
         | .error _ => False) := by
  refine ⟨by decide, fun k => List.Perm.refl _, ?_⟩
  cases hok : loadData sampleFrame cfgW fcW drawsZ permId with
  | ok p =>
      exact c1_pair_count_and_split_sum sampleFrame cfgW fcW drawsZ permId p
        (by decide) (fun k => List.Perm.refl _) hok
  | error e =>
      have hIsOk : (loadData sampleFrame cfgW fcW drawsZ permId).isOk = true := by
        with_unfolding_all rfl
      rw [hok] at hIsOk
      exact absurd hIsOk (by simp [Except.isOk, Except.toBool])

/-- C2: the target of the pair at position `m` of `sequence_data` is the
(scaled) `adjclose` value exactly `lookup_step` rows after the window's
last row, and that last row is row `n_steps - 1 + m` of the usable
table — i.e. the alignment is to the window's last row, not its first. -/
theorem c2_target_alignment (df : Frame) (cfg : Config) (fc : List String)
    (m : Nat) (h1 : 1 ≤ cfg.n_steps) (hm : m < (seqData df cfg fc).length) :
    ((seqData df cfg fc).getD m ([], 0)).2
        = colAt (scaledFrame df cfg fc) "adjclose"
            ((cfg.n_steps - 1 + m) + cfg.lookup_step)
      ∧ ((seqData df cfg fc).getD m ([], 0)).1.getLastD []
        = entryRow (scaledFrame df cfg fc) fc (cfg.n_steps - 1 + m) := by
  constructor
  · rw [seqData_getD df cfg fc h1 m hm]
  · exact seqData_window_last df cfg fc h1 m hm

/-- C2 witness: the first pair of `sampleFrame`'s sequence data. -/
theorem c2_target_alignment_witness :
    (1 ≤ cfgW.n_steps) ∧ (0 < (seqData sampleFrame cfgW fcW).length)
      ∧ (((seqData sampleFrame cfgW fcW).getD 0 ([], 0)).2
            = colAt (scaledFrame sampleFrame cfgW fcW) "adjclose"
                ((cfgW.n_steps - 1 + 0) + cfgW.lookup_step)
         ∧ ((seqData sampleFrame cfgW fcW).getD 0 ([], 0)).1.getLastD []
            = entryRow (scaledFrame sampleFrame cfgW fcW) fcW (cfgW.n_steps - 1 + 0)) := by
  refine ⟨by decide, ?_, ?_⟩
  · show 0 < (seqData sampleFrame cfgW fcW).length
    with_unfolding_all decide
  · exact c2_target_alignment sampleFrame cfgW fcW 0 (by decide)
      (by with_unfolding_all decide)

/-- C10: on every successful call, under either split policy, with or
without shuffling, the returned splits are length-consistent: as many
train sequences as train targets, and as many test sequences as test
targets. -/
theorem c10_split_lengths_consistent (df : Frame) (cfg : Config) (fc : List String)
    (draws : Nat → Nat) (permFn : Nat → List Nat) (p : LoadResult × Frame)
    (hok : loadData df cfg fc draws permFn = .ok p) :
    p.1.X_train.length = p.1.y_train.length
      ∧ p.1.X_test.length = p.1.y_test.length := by
  obtain ⟨r4, hsp, hne, hXtr, hXte, hytr, hyte, hlast, hdf, hafter⟩ :=
    loadData_ok_inv df cfg fc draws permFn p hok
  have hxy := splitArrays_ok_xy_lengths cfg draws permFn _ _ r4
    (by rw [List.length_map, List.length_map]) hsp
  constructor
  · rw [hXtr, hytr, List.length_map]
    exact hxy.1
  · rw [hXte, hyte, List.length_map]
    exact hxy.2

/-- C3 counterexample: on the six-row `sampleFrame` with `n_steps = 2`
and `lookup_step = 1`, the returned `last_sequence` has 3 rows, not the
`n_steps = 2` rows the claim asserts. -/
theorem c3_counterexample :
    ((loadData sampleFrame cfgW fcW drawsZ permId).toOption.map
        (fun p => p.1.last_sequence.length)) = some 3
      ∧ ¬ (3 = cfgW.n_steps) := by
  constructor
  · with_unfolding_all rfl
  · decide

/-- C3 as amended: the returned `last_sequence` has
`min n_steps usable_rows + min lookup_step total_rows` rows — in the
typical case `usable_rows ≥ n_steps`, that is `n_steps + lookup_step`
rows, not `n_steps`: the final window is concatenated with the
`lookup_step` tail rows captured before `dropna`. -/
theorem c3_last_sequence_length (df : Frame) (cfg : Config) (fc : List String)
    (draws : Nat → Nat) (permFn : Nat → List Nat) (p : LoadResult × Frame)
    (hok : loadData df cfg fc draws permFn = .ok p) :
    p.1.last_sequence.length
      = min cfg.n_steps (usableRows df cfg) + min cfg.lookup_step df.nrows := by
  obtain ⟨r4, hsp, hne, hXtr, hXte, hytr, hyte, hlast, hdf, hafter⟩ :=
    loadData_ok_inv df cfg fc draws permFn p hok
  rw [hlast, lastSeqOf_length]

/-- C3 witness: the amended length law instantiated on `sampleFrame`. -/
theorem c3_last_sequence_length_witness :
    (match loadData sampleFrame cfgW fcW drawsZ permId with
     | .ok p => p.1.last_sequence.length
         = min cfgW.n_steps (usableRows sampleFrame cfgW)
           + min cfgW.lookup_step sampleFrame.nrows
     | .error _ => False) := by
  cases hok : loadData sampleFrame cfgW fcW drawsZ permId with
  | ok p => exact c3_last_sequence_length sampleFrame cfgW fcW drawsZ permId p hok
  | error e =>
      have hIsOk : (loadData sampleFrame cfgW fcW drawsZ permId).isOk = true := by
        with_unfolding_all rfl
      rw [hok] at hIsOk
      exact absurd hIsOk (by simp [Except.isOk, Except.toBool])

/-- C4 counterexample: `load_data` aliases a caller-supplied frame
(`df = ticker`, no copy) and mutates it in place; on `sampleFrame` the
caller's table after the call (the second component of the result) is
the scaled/augmented/truncated `dfAfter`, which differs from the
original table. -/
theorem c4_counterexample :
    ((loadData sampleFrame cfgW fcW drawsZ permId).toOption.map Prod.snd)
        = some (dfAfter sampleFrame cfgW fcW)
      ∧ dfAfter sampleFrame cfgW fcW ≠ sampleFrame := by
  constructor
  · with_unfolding_all rfl
  · with_unfolding_all decide

/-- C4 as amended: `load_data` operates directly on the caller's table,
not on a copy: after a successful call the caller's table has been given
`date` and `future` columns, scaled in place when `scale` is set, and
truncated to the usable rows; whenever the input lacked a `future`
column the caller's table is therefore changed. Only the snapshot stored
in the result's `df` field is taken as a copy. -/
theorem c4_mutates_caller (df : Frame) (cfg : Config) (fc : List String)
    (draws : Nat → Nat) (permFn : Nat → List Nat) (p : LoadResult × Frame)
    (hok : loadData df cfg fc draws permFn = .ok p)
    (hfut : "future" ∉ df.columns) :
    p.2 = dfAfter df cfg fc ∧ p.2 ≠ df := by
  obtain ⟨r4, hsp, hne, hXtr, hXte, hytr, hyte, hlast, hdf, hafter⟩ :=
    loadData_ok_inv df cfg fc draws permFn p hok
  refine ⟨hafter, ?_⟩
  rw [hafter]
  intro he
  exact hfut (he ▸ mem_columns_dfAfter df cfg fc)

/-- C4 witness: the amended mutation law instantiated on `sampleFrame`. -/
theorem c4_mutates_caller_witness :
    ("future" ∉ sampleFrame.columns)
      ∧ (match loadData sampleFrame cfgW fcW drawsZ permId with
         | .ok p => p.2 = dfAfter sampleFrame cfgW fcW ∧ p.2 ≠ sampleFrame
         | .error _ => False) := by
  refine ⟨by decide, ?_⟩
  cases hok : loadData sampleFrame cfgW fcW drawsZ permId with
  | ok p => exact c4_mutates_caller sampleFrame cfgW fcW drawsZ permId p hok (by decide)
  | error e =>
      have hIsOk : (loadData sampleFrame cfgW fcW drawsZ permId).isOk = true := by
        with_unfolding_all rfl
      rw [hok] at hIsOk
      exact absurd hIsOk (by simp [Except.isOk, Except.toBool])

/-- C5: in the `split_by_date` branch (the chronological split
`chronoSplit`), before any intra-split shuffle (`shuffle = false`), every
train-window anchor date — the date tag of the window's last row —
strictly precedes every test-window anchor date, for any input table
with strictly increasing dates and no caller-supplied `date` column. -/
theorem c5_chrono_anchor_order (df : Frame) (cfg : Config) (fc : List String)
    (draws : Nat → Nat) (h1 : 1 ≤ cfg.n_steps) (hsh : cfg.shuffle = false)
    (hdate : "date" ∉ df.columns) (hfc : "date" ∉ fc)
    (hmono : df.index.Pairwise (· < ·))
    (a b : List (List ℚ))
    (ha : a ∈ (chronoSplit cfg draws ((seqData df cfg fc).map Prod.fst)
            ((seqData df cfg fc).map Prod.snd)).1)
    (hb : b ∈ (chronoSplit cfg draws ((seqData df cfg fc).map Prod.fst)
            ((seqData df cfg fc).map Prod.snd)).2.1) :
    (a.getLastD []).getLastD 0 < (b.getLastD []).getLastD 0 := by
  simp only [chronoSplit_shuffle_false cfg draws _ _ hsh] at ha hb
  rw [pySliceTo] at ha
  rw [pySliceFrom] at hb
  obtain ⟨i1, hi1, hae⟩ := List.mem_iff_getElem.mp ha
  obtain ⟨i2, hi2, hbe⟩ := List.mem_iff_getElem.mp hb
  rw [List.length_take] at hi1
  rw [List.length_drop] at hi2
  rw [List.getElem_take] at hae
  rw [List.getElem_drop] at hbe
  rw [List.getElem_map] at hae hbe
  have hi1k := lt_of_lt_of_le hi1 (min_le_left _ _)
  have hi1l : i1 < (seqData df cfg fc).length := by
    have := lt_of_lt_of_le hi1 (min_le_right _ _)
    rw [List.length_map] at this
    exact this
  have hi2l : pyIdx ((seqData df cfg fc).map Prod.fst).length
        (pyInt ((1 - cfg.test_size) * (((seqData df cfg fc).map Prod.fst).length : ℚ)))
        + i2 < (seqData df cfg fc).length := by
    rw [List.length_map] at hi2 ⊢
    omega
  have hA : (a.getLastD []).getLastD 0 = df.index.getD (cfg.n_steps - 1 + i1) 0 := by
    rw [← hae,
      show (seqData df cfg fc)[i1] = (seqData df cfg fc).getD i1 ([], 0) from
        (List.getD_eq_getElem _ _ hi1l).symm,
      seqData_window_last df cfg fc h1 i1 hi1l, getLastD_entryRow, colAt,
      getCol_date_scaledFrame df cfg fc hdate hfc]
  have hB : (b.getLastD []).getLastD 0
      = df.index.getD (cfg.n_steps - 1
          + (pyIdx ((seqData df cfg fc).map Prod.fst).length
              (pyInt ((1 - cfg.test_size)
                * (((seqData df cfg fc).map Prod.fst).length : ℚ))) + i2)) 0 := by
    rw [← hbe,
      show (seqData df cfg fc)[pyIdx ((seqData df cfg fc).map Prod.fst).length
            (pyInt ((1 - cfg.test_size)
              * (((seqData df cfg fc).map Prod.fst).length : ℚ))) + i2]
          = (seqData df cfg fc).getD (pyIdx ((seqData df cfg fc).map Prod.fst).length
            (pyInt ((1 - cfg.test_size)
              * (((seqData df cfg fc).map Prod.fst).length : ℚ))) + i2) ([], 0) from
        (List.getD_eq_getElem _ _ hi2l).symm,
      seqData_window_last df cfg fc h1 _ hi2l, getLastD_entryRow, colAt,
      getCol_date_scaledFrame df cfg fc hdate hfc]
  rw [hA, hB]
  have hsl := seqData_length df cfg fc
  have husable : usableRows df cfg ≤ df.index.length := by
    rw [usableRows, Frame.nrows]
    omega
  apply pairwise_lt_getD df.index hmono
  · omega
  · omega

/-- C5 witness: on `sampleFrame` with two-row windows and a half/half
chronological split, a concrete train window against a concrete test
window. -/
theorem c5_chrono_anchor_order_witness :
    (1 ≤ cfgW.n_steps) ∧ (cfgW.shuffle = false)
      ∧ ("date" ∉ sampleFrame.columns) ∧ ("date" ∉ fcW)
      ∧ sampleFrame.index.Pairwise (· < ·)
      ∧ ([[(10 : ℚ), 100, 0], [11, 101, 1]]
          ∈ (chronoSplit cfgW drawsZ ((seqData sampleFrame cfgW fcW).map Prod.fst)
              ((seqData sampleFrame cfgW fcW).map Prod.snd)).1)
      ∧ ([[(12 : ℚ), 102, 2], [13, 103, 3]]
          ∈ (chronoSplit cfgW drawsZ ((seqData sampleFrame cfgW fcW).map Prod.fst)
              ((seqData sampleFrame cfgW fcW).map Prod.snd)).2.1)
      ∧ (([[(10 : ℚ), 100, 0], [11, 101, 1]].getLastD []).getLastD 0
          < ([[(12 : ℚ), 102, 2], [13, 103, 3]].getLastD []).getLastD 0) := by
  refine ⟨by decide, by decide, by decide, by decide, by with_unfolding_all decide,
    by with_unfolding_all decide, by with_unfolding_all decide, ?_⟩
  exact c5_chrono_anchor_order sampleFrame cfgW fcW drawsZ (by decide) (by decide)
    (by decide) (by decide) (by with_unfolding_all decide) _ _
    (by with_unfolding_all decide) (by with_unfolding_all decide)

set_option maxRecDepth 100000 in
/-- C6: the specification's worked example: a 100-row table with
`n_steps = 5`, `lookup_step = 1`, `test_size = 1/5` and the
chronological split yields 95 windowed pairs, split positionally into
the first 76 as train and the remaining 19 as test, in original
chronological order (train concatenated with test is exactly the full
pair list). -/
theorem c6_chrono_example :
    (seqData frame100 cfg100 fcDefault).length = 95
      ∧ ((loadData frame100 cfg100 fcDefault drawsZ permId).toOption.map
          (fun p => (p.1.X_train.length, p.1.X_test.length))) = some (76, 19)
      ∧ ((loadData frame100 cfg100 fcDefault drawsZ permId).toOption.map
          (fun p => p.1.X_train ++ p.1.X_test))
        = some (((seqData frame100 cfg100 fcDefault).map Prod.fst).map
            (fun s => s.map (fun r => r.take fcDefault.length))) := by
  refine ⟨?_, ?_, ?_⟩ <;> with_unfolding_all rfl

/-- C7: `shuffle_in_unison` co-shuffles: because the generator state is
restored between the two calls, both equal-length arrays are rearranged
by one and the same index permutation, so position `i` of the two
outputs still holds an originally-paired sequence and target. -/
theorem c7_shuffle_in_unison_coshuffle {α β : Type} [Inhabited α] [Inhabited β]
    (draws : Nat → Nat) (a : List α) (b : List β) (h : a.length = b.length) :
    ∃ pi : List Nat, pi.Perm (List.range a.length)
      ∧ (shuffle_in_unison draws a b).1 = pi.map (fun i => a.getD i default)
      ∧ (shuffle_in_unison draws a b).2 = pi.map (fun i => b.getD i default) := by
  refine ⟨npShuffle draws (List.range a.length), npShuffle_perm _ _, ?_, ?_⟩
  · exact npShuffle_eq_perm_map draws a default
  · show npShuffle draws b = _
    rw [npShuffle_eq_perm_map draws b default, ← h]

/-- C7 witness: two concrete aligned triples under a nontrivial random
stream. -/
theorem c7_shuffle_in_unison_coshuffle_witness :
    (([1, 2, 3] : List ℚ).length = ([10, 20, 30] : List ℚ).length)
      ∧ ∃ pi : List Nat, pi.Perm (List.range ([1, 2, 3] : List ℚ).length)
          ∧ (shuffle_in_unison drawsW ([1, 2, 3] : List ℚ) ([10, 20, 30] : List ℚ)).1
              = pi.map (fun i => ([1, 2, 3] : List ℚ).getD i default)
          ∧ (shuffle_in_unison drawsW ([1, 2, 3] : List ℚ) ([10, 20, 30] : List ℚ)).2
              = pi.map (fun i => ([10, 20, 30] : List ℚ).getD i default) :=
  ⟨rfl, c7_shuffle_in_unison_coshuffle drawsW _ _ rfl⟩

/-- C8: if any requested feature column is missing from the table, the
assertion loop fails immediately with an error naming an offending
(requested but absent) column, and no dataset is produced. -/
theorem c8_missing_column (df : Frame) (cfg : Config) (fc : List String)
    (draws : Nat → Nat) (permFn : Nat → List Nat) (col : String)
    (hmem : col ∈ fc) (habs : col ∉ df.columns) :
    ∃ c, c ∈ fc ∧ c ∉ df.columns
      ∧ loadData df cfg fc draws permFn = .error (.missingColumn c) := by
  have hcf : df.columns.contains col = false := by
    rcases hcv : df.columns.contains col
    · rfl
    · exact absurd (List.elem_iff.mp hcv) habs
  have hsome : (fc.find? (fun c => !(df.columns.contains c))).isSome := by
    rw [List.find?_isSome]
    exact ⟨col, hmem, by rw [hcf]; rfl⟩
  obtain ⟨c, hc⟩ := Option.isSome_iff_exists.mp hsome
  have hcc := List.find?_some hc
  have hcmem := List.mem_of_find?_eq_some hc
  refine ⟨c, hcmem, ?_, ?_⟩
  · intro hx
    have hcv : df.columns.contains c = true := List.elem_iff.mpr hx
    rw [hcv] at hcc
    exact absurd hcc (by simp)
  · rw [loadData, hc]

/-- C8 witness: requesting the absent column `nope` on `sampleFrame`. -/
theorem c8_missing_column_witness :
    ("nope" ∈ ["adjclose", "nope"]) ∧ ("nope" ∉ sampleFrame.columns)
      ∧ ∃ c, c ∈ ["adjclose", "nope"] ∧ c ∉ sampleFrame.columns
          ∧ loadData sampleFrame cfgW ["adjclose", "nope"] drawsZ permId
              = .error (.missingColumn c) :=
  ⟨by decide, by decide,
   c8_missing_column sampleFrame cfgW ["adjclose", "nope"] drawsZ permId "nope"
     (by decide) (by decide)⟩

/-- C9: when fewer usable rows than `n_steps` remain, no window is ever
emitted and `load_data` raises before returning anything: the missing
column assertion, the `adjclose` lookup, `train_test_split` on an empty
input, or the anchor-date extraction `X_test[:, -1, -1]` on the 1-D
empty array all error out; an empty dataset is never returned. -/
theorem c9_undersized_input_fails (df : Frame) (cfg : Config) (fc : List String)
    (draws : Nat → Nat) (permFn : Nat → List Nat)
    (h : usableRows df cfg < cfg.n_steps) :
    ∃ e, loadData df cfg fc draws permFn = .error e := by
  have hempty : seqData df cfg fc = [] := by
    rw [← List.length_eq_zero, seqData_length]
    omega
  rw [loadData]
  rcases hfind : fc.find? (fun c => !(df.columns.contains c)) with _ | c
  · show ∃ e, loadDataBody df cfg fc draws permFn = .error e
    rw [loadDataBody]
    rcases hadj : df.columns.contains "adjclose"
    · simp only [Bool.false_eq_true, if_false]
      exact ⟨.keyError "adjclose", rfl⟩
    · simp only [if_true]
      rcases hsp : splitArrays cfg draws permFn ((seqData df cfg fc).map Prod.fst)
          ((seqData df cfg fc).map Prod.snd) with e | r4
      · exact ⟨e, rfl⟩
      · show ∃ e, loadDataFinish df cfg fc r4 = .error e
        rw [loadDataFinish, hempty]
        simp only [List.isEmpty_nil, if_true]
        exact ⟨.indexError, rfl⟩
  · exact ⟨.missingColumn c, rfl⟩

/-- C9 witness: a two-row table with five-step windows. -/
theorem c9_undersized_input_fails_witness :
    (usableRows frame2 cfgN5 < cfgN5.n_steps)
      ∧ ∃ e, loadData frame2 cfgN5 fcW drawsZ permId = .error e :=
  ⟨by decide, c9_undersized_input_fails frame2 cfgN5 fcW drawsZ permId (by decide)⟩

/-- C10 witness: instantiated on `sampleFrame`. -/
theorem c10_split_lengths_consistent_witness :
    (match loadData sampleFrame cfgW fcW drawsZ permId with
     | .ok p => p.1.X_train.length = p.1.y_train.length
         ∧ p.1.X_test.length = p.1.y_test.length
     | .error _ => False) := by
  cases hok : loadData sampleFrame cfgW fcW drawsZ permId with
  | ok p => exact c10_split_lengths_consistent sampleFrame cfgW fcW drawsZ permId p hok
  | error e =>
      have hIsOk : (loadData sampleFrame cfgW fcW drawsZ permId).isOk = true := by
        with_unfolding_all rfl
      rw [hok] at hIsOk
      exact absurd hIsOk (by simp [Except.isOk, Except.toBool])

end StockPred
